import Mathlib

/-!
Verification of the bencode2json streaming transducer.

This file gives a shallow embedding of the core of the `bencode2json`
crate: the byte reader with one-byte lookahead (`src/rw/byte_reader.rs`),
the integer and string lexers (`src/tokenizer/integer.rs`,
`src/tokenizer/string.rs`), the tokenizer (`src/tokenizer/mod.rs`), and
the stack-driven JSON generator (`src/generators/json.rs`,
`src/generators/stack.rs`), together with the library entry point
`try_bencode_to_json` (`src/lib.rs`).

Bytes are modelled as `Nat` values below 256 and byte streams as
`List Nat`.  In string-output mode the output is a sequence of Unicode
scalar values, also modelled as `List Nat`.  Fallible operations return
`Except Err` where `Err` embeds the crate error enum (positions and
captured-context payloads, which never influence parsing, are dropped).
The main parsing loop is expressed with an explicit fuel parameter
returning `Option`; `none` means the fuel ran out, and we prove that the
fuel used by the entry point always suffices.
-/

/-- Kinds of bencoded values, embedding `BencodeType`
from `src/generators/mod.rs`. -/
inductive BencodeType where
  | Integer
  | String
  | List
  | Dict
deriving DecidableEq, Repr

/-- Embedding of the error enum of `src/error.rs`, keeping the variant
(and, for the dictionary-key error, the offending kind) and dropping the
read/write context payloads, which carry diagnostics only. -/
inductive Err where
  | UnrecognizedFirstBencodeValueByte
  | UnexpectedByteParsingInteger
  | UnexpectedEndOfInputParsingInteger
  | LeadingZerosInIntegersNotAllowed
  | InvalidStringLengthByte
  | UnexpectedEndOfInputParsingStringLength
  | UnexpectedEndOfInputParsingStringValue
  | ReadByteAfterPeekingDoesMatchPeekedByte
  | ExpectedStringForDictKeyGot (kind : BencodeType)
  | PrematureEndOfDict
  | NoMatchingStartForListOrDictEnd
  | UnexpectedEndOfInputExpectingFirstListItemOrEnd
  | UnexpectedEndOfInputExpectingNextListItem
  | UnexpectedEndOfInputExpectingFirstDictFieldOrEnd
  | UnexpectedEndOfInputExpectingDictFieldValue
  | UnexpectedEndOfInputExpectingDictFieldKeyOrEnd
deriving DecidableEq, Repr

/-- Embedding of `BencodeToken` from `src/tokenizer/mod.rs`. -/
inductive BencodeToken where
  | Integer (bytes : List Nat)
  | String (bytes : List Nat)
  | BeginList
  | BeginDict
  | EndListOrDict
  | LineBreak
deriving DecidableEq, Repr

/-- Embedding of the nesting-stack `State` enum from
`src/generators/stack.rs`. -/
inductive State where
  | Initial
  | ExpectingFirstListItemOrEnd
  | ExpectingNextListItem
  | ExpectingFirstDictFieldOrEnd
  | ExpectingDictFieldValue
  | ExpectingDictFieldKeyOrEnd
deriving DecidableEq, Repr

/-- ASCII digit test, embedding `u8::is_ascii_digit`. -/
def isAsciiDigit (b : Nat) : Bool := 48 ≤ b && b ≤ 57

/-- Push one byte into a capacity-1024 ring buffer, embedding
`AllocRingBuffer::push` as used by the reader diagnostics. -/
def pushCap1024 (l : List Nat) (b : Nat) : List Nat :=
  let l' := l ++ [b]
  if l'.length ≤ 1024 then l' else l'.drop (l'.length - 1024)

/-- Embedding of `ByteReader` from `src/rw/byte_reader.rs`: the pending
input, the monotonic counter of consumed bytes, the at-most-one peeked
byte, the last byte read and the bounded capture buffer. -/
structure ByteReader where
  input : List Nat
  input_byte_counter : Nat
  peeked_byte : Option Nat
  last_byte : Option Nat
  captured_bytes : List Nat
deriving DecidableEq, Repr

/-- Embedding of `ByteReader::read_byte`: a pending peeked byte is
drained first; otherwise one byte is pulled from the input, the counter
is advanced and the diagnostics are updated.  `none` is the Eof error. -/
def ByteReader.read_byte (r : ByteReader) : Option (Nat × ByteReader) :=
  match r.peeked_byte with
  | some b => some (b, { r with peeked_byte := none })
  | none =>
    match r.input with
    | [] => none
    | b :: rest =>
      some (b, { input := rest,
                 input_byte_counter := r.input_byte_counter + 1,
                 peeked_byte := none,
                 last_byte := some b,
                 captured_bytes := pushCap1024 r.captured_bytes b })

/-- Embedding of `ByteReader::peek_byte`: return the cached byte if one
is pending, otherwise read one byte and cache it. -/
def ByteReader.peek_byte (r : ByteReader) : Option (Nat × ByteReader) :=
  match r.peeked_byte with
  | some b => some (b, r)
  | none =>
    match r.read_byte with
    | some (b, r') => some (b, { r' with peeked_byte := some b })
    | none => none

/-- Embedding of the digit-or-end loop of the integer lexer
(`StateExpecting::DigitOrEnd` in `src/tokenizer/integer.rs`): `flag`
records whether the first digit of the magnitude was `0`, `acc` holds
the raw bytes collected so far. -/
def parseIntDigits (flag : Bool) (acc : List Nat) : List Nat → Except Err (List Nat × List Nat)
  | [] => Except.error Err.UnexpectedEndOfInputParsingInteger
  | b :: rest =>
    if isAsciiDigit b then
      if b = 48 && flag then Except.error Err.LeadingZerosInIntegersNotAllowed
      else parseIntDigits flag (acc ++ [b]) rest
    else if b = 101 then Except.ok (acc, rest)
    else Except.error Err.UnexpectedByteParsingInteger

/-- Embedding of `integer::parse` from `src/tokenizer/integer.rs`.  The
input starts at the `i` byte (discarded by the `Start` state); the
result is the raw sign and digit bytes plus the unconsumed input. -/
def integerParse : List Nat → Except Err (List Nat × List Nat)
  | [] => Except.error Err.UnexpectedEndOfInputParsingInteger
  | _ :: rest =>
    match rest with
    | [] => Except.error Err.UnexpectedEndOfInputParsingInteger
    | b :: rest' =>
      if b = 45 then
        match rest' with
        | [] => Except.error Err.UnexpectedEndOfInputParsingInteger
        | c :: rest'' =>
          if isAsciiDigit c then parseIntDigits (c = 48) [45, c] rest''
          else Except.error Err.UnexpectedByteParsingInteger
      else if isAsciiDigit b then parseIntDigits (b = 48) [b] rest'
      else Except.error Err.UnexpectedByteParsingInteger

/-- Embedding of `Length::parse` from `src/tokenizer/string.rs`: read
digits, accumulating the decimal value, until the `:` separator. -/
def lengthParse (n : Nat) : List Nat → Except Err (Nat × List Nat)
  | [] => Except.error Err.UnexpectedEndOfInputParsingStringLength
  | b :: rest =>
    if b = 58 then Except.ok (n, rest)
    else if isAsciiDigit b then lengthParse (n * 10 + (b - 48)) rest
    else Except.error Err.InvalidStringLengthByte

/-- Embedding of `Value::parse` from `src/tokenizer/string.rs`: read
exactly `len` raw bytes. -/
def valueParse : Nat → List Nat → Except Err (List Nat × List Nat)
  | 0, l => Except.ok ([], l)
  | _ + 1, [] => Except.error Err.UnexpectedEndOfInputParsingStringValue
  | n + 1, b :: rest =>
    match valueParse n rest with
    | Except.ok (v, rem) => Except.ok (b :: v, rem)
    | Except.error e => Except.error e

/-- Embedding of `string::parse` from `src/tokenizer/string.rs`: the
length part, then exactly that many value bytes. -/
def stringParse (l : List Nat) : Except Err (List Nat × List Nat) :=
  match lengthParse 0 l with
  | Except.ok (n, rest) => valueParse n rest
  | Except.error e => Except.error e

/-- Embedding of `Tokenizer::next_token` from `src/tokenizer/mod.rs`:
peek the first byte to classify the token; end of input while peeking
is normal exhaustion (`ok none`). -/
def next_token (l : List Nat) : Except Err (Option (BencodeToken × List Nat)) :=
  match l with
  | [] => Except.ok none
  | b :: rest =>
    if b = 105 then
      match integerParse (b :: rest) with
      | Except.ok (v, rem) => Except.ok (some (BencodeToken.Integer v, rem))
      | Except.error e => Except.error e
    else if isAsciiDigit b then
      match stringParse (b :: rest) with
      | Except.ok (v, rem) => Except.ok (some (BencodeToken.String v, rem))
      | Except.error e => Except.error e
    else if b = 108 then Except.ok (some (BencodeToken.BeginList, rest))
    else if b = 100 then Except.ok (some (BencodeToken.BeginDict, rest))
    else if b = 101 then Except.ok (some (BencodeToken.EndListOrDict, rest))
    else if b = 10 then Except.ok (some (BencodeToken.LineBreak, rest))
    else Except.error Err.UnrecognizedFirstBencodeValueByte

/-- Continuation-byte test for UTF-8 validation (`0x80..=0xBF`). -/
def isUtf8Cont (c : Nat) : Bool := 128 ≤ c && c ≤ 191

/-- Embedding of `core::str::from_utf8` as used by the generator: decode
a byte sequence into its Unicode scalar values, or `none` when the bytes
are not well-formed UTF-8 (same validity ranges as Rust, surrogates and
overlong forms rejected). -/
def decodeUtf8 : List Nat → Option (List Nat)
  | [] => some []
  | b :: rest =>
    if b ≤ 127 then
      (decodeUtf8 rest).map (fun cs => b :: cs)
    else if 194 ≤ b && b ≤ 223 then
      match rest with
      | c :: rest' =>
        if isUtf8Cont c then
          (decodeUtf8 rest').map (fun cs => ((b - 192) * 64 + (c - 128)) :: cs)
        else none
      | [] => none
    else if 224 ≤ b && b ≤ 239 then
      match rest with
      | c :: d :: rest' =>
        let lo : Nat := if b = 224 then 160 else 128
        let hi : Nat := if b = 237 then 159 else 191
        if (lo ≤ c && c ≤ hi) && isUtf8Cont d then
          (decodeUtf8 rest').map
            (fun cs => ((b - 224) * 4096 + (c - 128) * 64 + (d - 128)) :: cs)
        else none
      | _ => none
    else if 240 ≤ b && b ≤ 244 then
      match rest with
      | c :: d :: e :: rest' =>
        let lo : Nat := if b = 240 then 144 else 128
        let hi : Nat := if b = 244 then 143 else 191
        if ((lo ≤ c && c ≤ hi) && isUtf8Cont d) && isUtf8Cont e then
          (decodeUtf8 rest').map
            (fun cs => ((b - 240) * 262144 + (c - 128) * 4096 + (d - 128) * 64 + (e - 128)) :: cs)
        else none
      | _ => none
    else none

/-- Lowercase hexadecimal digit, as used by both `hex::encode` and the
`\u00xx` escapes of `serde_json`. -/
def hexDigitChar (n : Nat) : Nat := if n < 10 then 48 + n else 87 + n

/-- Embedding of `hex::encode`: two lowercase hex digits per byte. -/
def hexEncode : List Nat → List Nat
  | [] => []
  | b :: rest => hexDigitChar (b / 16) :: hexDigitChar (b % 16) :: hexEncode rest

/-- Escape of one character by `serde_json::to_string`: quote and
backslash get a backslash escape, control characters get their short
escape or a lowercase `\u00xx` escape, everything else is unchanged. -/
def jsonEscapeChar (c : Nat) : List Nat :=
  if c = 34 then [92, 34]
  else if c = 92 then [92, 92]
  else if c = 8 then [92, 98]
  else if c = 9 then [92, 116]
  else if c = 10 then [92, 110]
  else if c = 12 then [92, 102]
  else if c = 13 then [92, 114]
  else if c < 32 then [92, 117, 48, 48, hexDigitChar (c / 16), hexDigitChar (c % 16)]
  else [c]

/-- Escape a whole character sequence per `serde_json` rules. -/
def jsonEscapeList : List Nat → List Nat
  | [] => []
  | c :: rest => jsonEscapeChar c ++ jsonEscapeList rest

/-- Embedding of `serde_json::to_string` on a string value: a double
quote, the escaped contents, a closing double quote. -/
def jsonEncodeString (s : List Nat) : List Nat := 34 :: (jsonEscapeList s ++ [34])

/-- The scalar values of `<string>`. -/
def strTagOpen : List Nat := [60, 115, 116, 114, 105, 110, 103, 62]

/-- The scalar values of `</string>`. -/
def strTagClose : List Nat := [60, 47, 115, 116, 114, 105, 110, 103, 62]

/-- The scalar values of `<hex>`. -/
def hexTagOpen : List Nat := [60, 104, 101, 120, 62]

/-- The scalar values of `</hex>`. -/
def hexTagClose : List Nat := [60, 47, 104, 101, 120, 62]

/-- Embedding of the `BencodeToken::String` arm of `Generator::parse`
in `src/generators/json.rs`: valid UTF-8 value bytes are decoded and
wrapped in `<string>` tags, invalid ones are hex encoded and wrapped in
`<hex>` tags; the wrapped text is then serialized as a JSON string
literal by `serde_json::to_string`. -/
def encodeStringToken (bytes : List Nat) : List Nat :=
  match decodeUtf8 bytes with
  | some chars => jsonEncodeString (strTagOpen ++ chars ++ strTagClose)
  | none => jsonEncodeString (hexTagOpen ++ hexEncode bytes ++ hexTagClose)

/-- Embedding of `Generator::begin_bencoded_value` from
`src/generators/json.rs`: given the kind of the incoming value and the
stack, either fail (non-string dictionary key) or return the updated
stack and the separator characters written.  The empty-stack case is
unreachable: the bottom `Initial` frame is never popped. -/
def begin_bencoded_value (t : BencodeType) (stack : List State) :
    Except Err (List State × List Nat) :=
  match stack with
  | State.Initial :: rest => Except.ok (State.Initial :: rest, [])
  | State.ExpectingFirstListItemOrEnd :: rest =>
    Except.ok (State.ExpectingNextListItem :: rest, [])
  | State.ExpectingNextListItem :: rest =>
    Except.ok (State.ExpectingNextListItem :: rest, [44])
  | State.ExpectingFirstDictFieldOrEnd :: rest =>
    if t = BencodeType.String then Except.ok (State.ExpectingDictFieldValue :: rest, [])
    else Except.error (Err.ExpectedStringForDictKeyGot t)
  | State.ExpectingDictFieldValue :: rest =>
    Except.ok (State.ExpectingDictFieldKeyOrEnd :: rest, [58])
  | State.ExpectingDictFieldKeyOrEnd :: rest =>
    if t = BencodeType.String then Except.ok (State.ExpectingDictFieldValue :: rest, [44])
    else Except.error (Err.ExpectedStringForDictKeyGot t)
  | [] => Except.ok ([], [])

/-- Embedding of `Generator::end_list_or_dict` from
`src/generators/json.rs`: close the innermost frame, or fail on a key
with no value or a stray closer.  The empty-stack case is unreachable. -/
def end_list_or_dict (stack : List State) : Except Err (List State × List Nat) :=
  match stack with
  | State.ExpectingFirstListItemOrEnd :: rest => Except.ok (rest, [93])
  | State.ExpectingNextListItem :: rest => Except.ok (rest, [93])
  | State.ExpectingFirstDictFieldOrEnd :: rest => Except.ok (rest, [125])
  | State.ExpectingDictFieldKeyOrEnd :: rest => Except.ok (rest, [125])
  | State.ExpectingDictFieldValue :: _ => Except.error Err.PrematureEndOfDict
  | State.Initial :: _ => Except.error Err.NoMatchingStartForListOrDictEnd
  | [] => Except.error Err.NoMatchingStartForListOrDictEnd

/-- Embedding of `Generator::check_bad_end_stack_state` from
`src/generators/json.rs`: at end of stream only the bare `Initial`
frame is a correct terminal state. -/
def check_bad_end_stack_state (stack : List State) : Except Err Unit :=
  match stack with
  | State.Initial :: _ => Except.ok ()
  | State.ExpectingFirstListItemOrEnd :: _ =>
    Except.error Err.UnexpectedEndOfInputExpectingFirstListItemOrEnd
  | State.ExpectingNextListItem :: _ =>
    Except.error Err.UnexpectedEndOfInputExpectingNextListItem
  | State.ExpectingFirstDictFieldOrEnd :: _ =>
    Except.error Err.UnexpectedEndOfInputExpectingFirstDictFieldOrEnd
  | State.ExpectingDictFieldValue :: _ =>
    Except.error Err.UnexpectedEndOfInputExpectingDictFieldValue
  | State.ExpectingDictFieldKeyOrEnd :: _ =>
    Except.error Err.UnexpectedEndOfInputExpectingDictFieldKeyOrEnd
  | [] => Except.ok ()

/-- One iteration of the token loop of `Generator::parse` in
`src/generators/json.rs`: dispatch on the token, run the begin or end
transition, and append the written characters to the output. -/
def processToken (t : BencodeToken) (stack : List State) (out : List Nat) :
    Except Err (List State × List Nat) :=
  match t with
  | BencodeToken.Integer bytes =>
    match begin_bencoded_value BencodeType.Integer stack with
    | Except.ok (stack', sep) => Except.ok (stack', out ++ sep ++ bytes)
    | Except.error e => Except.error e
  | BencodeToken.String bytes =>
    match begin_bencoded_value BencodeType.String stack with
    | Except.ok (stack', sep) => Except.ok (stack', out ++ sep ++ encodeStringToken bytes)
    | Except.error e => Except.error e
  | BencodeToken.BeginList =>
    match begin_bencoded_value BencodeType.List stack with
    | Except.ok (stack', sep) =>
      Except.ok (State.ExpectingFirstListItemOrEnd :: stack', out ++ sep ++ [91])
    | Except.error e => Except.error e
  | BencodeToken.BeginDict =>
    match begin_bencoded_value BencodeType.Dict stack with
    | Except.ok (stack', sep) =>
      Except.ok (State.ExpectingFirstDictFieldOrEnd :: stack', out ++ sep ++ [123])
    | Except.error e => Except.error e
  | BencodeToken.EndListOrDict =>
    match end_list_or_dict stack with
    | Except.ok (stack', closer) => Except.ok (stack', out ++ closer)
    | Except.error e => Except.error e
  | BencodeToken.LineBreak => Except.ok (stack, out)

/-- Embedding of the `while let` loop of `Generator::parse` in
`src/generators/json.rs`, with an explicit fuel bound on the number of
iterations; `none` means the fuel ran out (which never happens for the
fuel chosen by the entry point, see `parseFuel_isSome`). -/
def parseFuel : Nat → List Nat → List State → List Nat → Option (Except Err (List Nat))
  | 0, _, _, _ => none
  | fuel + 1, input, stack, out =>
    match next_token input with
    | Except.error e => some (Except.error e)
    | Except.ok none =>
      match check_bad_end_stack_state stack with
      | Except.ok _ => some (Except.ok out)
      | Except.error e => some (Except.error e)
    | Except.ok (some (t, rem)) =>
      match processToken t stack out with
      | Except.error e => some (Except.error e)
      | Except.ok (stack', out') => parseFuel fuel rem stack' out'

/-- The bencode generator for nested empty lists from `src/test.rs`
(`generate_n_nested_empty_bencoded_lists`): `n` times `l` then `n`
times `e`. -/
def benNestedLists (n : Nat) : List Nat :=
  List.replicate n 108 ++ List.replicate n 101

/-- The bencode generator for nested dictionaries from `src/test.rs`
(`generate_n_nested_empty_bencoded_dictionaries`): `n` dictionaries
keyed `3:foo`, the innermost value being the empty dictionary `de`. -/
def benNestedDicts : Nat → List Nat
  | 0 => [100, 101]
  | n + 1 => 100 :: 51 :: 58 :: 102 :: 111 :: 111 :: (benNestedDicts n ++ [101])

/-- The JSON string literal produced for the key `foo`, that is
`"<string>foo</string>"` with the surrounding double quotes. -/
def fooKeyLit : List Nat :=
  [34, 60, 115, 116, 114, 105, 110, 103, 62, 102, 111, 111,
   60, 47, 115, 116, 114, 105, 110, 103, 62, 34]

/-- The expected JSON for nested dictionaries from `src/test.rs`
(`generate_n_nested_empty_json_objects`). -/
def jsonNestedObjects : Nat → List Nat
  | 0 => [123, 125]
  | n + 1 => 123 :: (fooKeyLit ++ [58] ++ jsonNestedObjects n ++ [125])

theorem jsonEscapeList_append (a b : List Nat) :
    jsonEscapeList (a ++ b) = jsonEscapeList a ++ jsonEscapeList b := by
  induction a with
  | nil => simp [jsonEscapeList]
  | cons c a ih => simp [jsonEscapeList, ih]

theorem jsonEscapeChar_eq_self {c : Nat} (h1 : 32 ≤ c) (h2 : c ≠ 34) (h3 : c ≠ 92) :
    jsonEscapeChar c = [c] := by
  have e8 : c ≠ 8 := by omega
  have e9 : c ≠ 9 := by omega
  have e10 : c ≠ 10 := by omega
  have e12 : c ≠ 12 := by omega
  have e13 : c ≠ 13 := by omega
  have e32 : ¬ c < 32 := by omega
  simp [jsonEscapeChar, h2, h3, e8, e9, e10, e12, e13, e32]

theorem jsonEscapeChar_hexDigitChar (n : Nat) :
    jsonEscapeChar (hexDigitChar n) = [hexDigitChar n] := by
  unfold hexDigitChar
  by_cases h : n < 10 <;> simp only [h, if_true, if_false] <;>
    exact jsonEscapeChar_eq_self (by omega) (by omega) (by omega)

theorem jsonEscapeList_hexEncode (bs : List Nat) :
    jsonEscapeList (hexEncode bs) = hexEncode bs := by
  induction bs with
  | nil => simp [hexEncode, jsonEscapeList]
  | cons b bs ih =>
    simp [hexEncode, jsonEscapeList, jsonEscapeChar_hexDigitChar, ih]

theorem isAsciiDigit_ne_101 {b : Nat} (h : isAsciiDigit b = true) : b ≠ 101 := by
  unfold isAsciiDigit at h
  simp only [Bool.and_eq_true, decide_eq_true_eq] at h
  omega

/-- Prefix determinism of the integer digit loop: a successful parse
consumed a nonempty prefix, and re-running on that prefix followed by
any other continuation succeeds identically. -/
theorem parseIntDigits_prefix :
    ∀ (xs : List Nat) (flag : Bool) (acc v rest : List Nat),
      parseIntDigits flag acc xs = Except.ok (v, rest) →
      ∃ c, xs = c ++ rest ∧ c ≠ [] ∧
        ∀ ys, parseIntDigits flag acc (c ++ ys) = Except.ok (v, ys) := by
  intro xs
  induction xs with
  | nil => intro flag acc v rest h; simp [parseIntDigits] at h
  | cons b xs ih =>
    intro flag acc v rest h
    by_cases hd : isAsciiDigit b
    · by_cases hz : (decide (b = 48) && flag) = true
      · simp [parseIntDigits, hd, hz] at h
      · simp only [parseIntDigits, hd, if_true, hz, if_false, Bool.not_eq_true] at h
        obtain ⟨c, hc, hne, hext⟩ := ih flag (acc ++ [b]) v rest h
        refine ⟨b :: c, by simp [hc], by simp, fun ys => ?_⟩
        simp only [List.cons_append, parseIntDigits, hd, if_true, hz, if_false]
        exact hext ys
    · by_cases he : b = 101
      · subst he
        simp [parseIntDigits, hd] at h
        obtain ⟨hv, hr⟩ := h
        subst hv; subst hr
        exact ⟨[101], by simp, by simp, fun ys => by simp [parseIntDigits, hd]⟩
      · simp [parseIntDigits, hd, he] at h

/-- Prefix determinism of the string-length loop. -/
theorem lengthParse_prefix :
    ∀ (xs : List Nat) (n m : Nat) (rest : List Nat),
      lengthParse n xs = Except.ok (m, rest) →
      ∃ c, xs = c ++ rest ∧ c ≠ [] ∧
        ∀ ys, lengthParse n (c ++ ys) = Except.ok (m, ys) := by
  intro xs
  induction xs with
  | nil => intro n m rest h; simp [lengthParse] at h
  | cons b xs ih =>
    intro n m rest h
    by_cases hc : b = 58
    · subst hc
      simp [lengthParse] at h
      obtain ⟨hm, hr⟩ := h
      subst hm; subst hr
      exact ⟨[58], by simp, by simp, fun ys => by simp [lengthParse]⟩
    · by_cases hd : isAsciiDigit b
      · simp only [lengthParse, hc, if_false, hd, if_true] at h
        obtain ⟨c, hcc, hne, hext⟩ := ih (n * 10 + (b - 48)) m rest h
        refine ⟨b :: c, by simp [hcc], by simp, fun ys => ?_⟩
        simp only [List.cons_append, lengthParse, hc, if_false, hd, if_true]
        exact hext ys
      · simp [lengthParse, hc, hd] at h

/-- A successful value parse returns exactly the consumed bytes, whose
count is the requested length, and re-running on those bytes followed
by any continuation succeeds identically. -/
theorem valueParse_prefix :
    ∀ (n : Nat) (xs v rest : List Nat),
      valueParse n xs = Except.ok (v, rest) →
      xs = v ++ rest ∧ v.length = n ∧
        ∀ ys, valueParse n (v ++ ys) = Except.ok (v, ys) := by
  intro n
  induction n with
  | zero =>
    intro xs v rest h
    simp [valueParse] at h
    obtain ⟨hv, hr⟩ := h
    subst hv; subst hr
    exact ⟨by simp, rfl, fun ys => by simp [valueParse]⟩
  | succ n ih =>
    intro xs v rest h
    cases xs with
    | nil => simp [valueParse] at h
    | cons b xs =>
      simp only [valueParse] at h
      cases hv : valueParse n xs with
      | error e => rw [hv] at h; simp at h
      | ok p =>
        obtain ⟨v', rem'⟩ := p
        rw [hv] at h
        simp at h
        obtain ⟨hvv, hrr⟩ := h
        subst hvv; subst hrr
        obtain ⟨hx, hl, hext⟩ := ih xs v' rem' hv
        refine ⟨by simp [hx], by simp [hl], fun ys => ?_⟩
        simp only [List.cons_append, valueParse, List.append_eq, hext ys]

/-- Prefix determinism of the integer lexer. -/
theorem integerParse_prefix :
    ∀ (xs v rest : List Nat),
      integerParse xs = Except.ok (v, rest) →
      ∃ c, xs = c ++ rest ∧ c ≠ [] ∧
        ∀ ys, integerParse (c ++ ys) = Except.ok (v, ys) := by
  intro xs v rest h
  match xs with
  | [] => simp [integerParse] at h
  | [i0] => simp [integerParse] at h
  | i0 :: b :: rest' =>
    by_cases hm : b = 45
    · subst hm
      match rest' with
      | [] => simp [integerParse] at h
      | c0 :: rest'' =>
        by_cases hd : isAsciiDigit c0
        · simp only [integerParse, if_true, hd, if_pos rfl] at h
          obtain ⟨c, hc, hne, hext⟩ := parseIntDigits_prefix rest'' _ _ v rest h
          refine ⟨i0 :: 45 :: c0 :: c, by simp [hc], by simp, fun ys => ?_⟩
          simp only [List.cons_append, integerParse, if_pos rfl, hd, if_true]
          exact hext ys
        · simp [integerParse, hd] at h
    · by_cases hd : isAsciiDigit b
      · simp only [integerParse, hm, if_false, hd, if_true] at h
        obtain ⟨c, hc, hne, hext⟩ := parseIntDigits_prefix rest' _ _ v rest h
        refine ⟨i0 :: b :: c, by simp [hc], by simp, fun ys => ?_⟩
        simp only [List.cons_append, integerParse, hm, if_false, hd, if_true]
        exact hext ys
      · simp [integerParse, hm, hd] at h

/-- Prefix determinism of the string lexer. -/
theorem stringParse_prefix :
    ∀ (xs v rest : List Nat),
      stringParse xs = Except.ok (v, rest) →
      ∃ c, xs = c ++ rest ∧ c ≠ [] ∧
        ∀ ys, stringParse (c ++ ys) = Except.ok (v, ys) := by
  intro xs v rest h
  unfold stringParse at h
  cases hl : lengthParse 0 xs with
  | error e => rw [hl] at h; simp at h
  | ok p =>
    obtain ⟨n, rest1⟩ := p
    rw [hl] at h
    simp only at h
    obtain ⟨c1, hc1, hne1, hext1⟩ := lengthParse_prefix xs 0 n rest1 hl
    obtain ⟨hx2, hl2, hext2⟩ := valueParse_prefix n rest1 v rest h
    refine ⟨c1 ++ v, by simp [hc1, hx2], by simp [hne1], fun ys => ?_⟩
    unfold stringParse
    rw [List.append_assoc, hext1 (v ++ ys)]
    simp only
    exact hext2 ys

/-- Prefix determinism of the tokenizer: a token is produced from a
nonempty consumed prefix, and the same prefix produces the same token
in front of any continuation. -/
theorem next_token_prefix :
    ∀ (xs : List Nat) (t : BencodeToken) (rest : List Nat),
      next_token xs = Except.ok (some (t, rest)) →
      ∃ c, xs = c ++ rest ∧ c ≠ [] ∧
        ∀ ys, next_token (c ++ ys) = Except.ok (some (t, ys)) := by
  intro xs t rest h
  cases xs with
  | nil => simp [next_token] at h
  | cons b rest0 =>
    by_cases hi : b = 105
    · subst hi
      rw [show next_token (105 :: rest0) = (match integerParse (105 :: rest0) with
          | Except.ok (v, rem) => Except.ok (some (BencodeToken.Integer v, rem))
          | Except.error e => Except.error e) from by simp [next_token]] at h
      cases hp : integerParse (105 :: rest0) with
      | error e => rw [hp] at h; simp at h
      | ok p =>
        obtain ⟨v, rem⟩ := p
        rw [hp] at h
        simp at h
        obtain ⟨ht, hr⟩ := h
        subst ht; subst hr
        obtain ⟨c, hc, hne, hext⟩ := integerParse_prefix _ _ _ hp
        cases c with
        | nil => exact absurd rfl hne
        | cons cb c' =>
          have hc2 := hc
          simp only [List.cons_append, List.cons.injEq] at hc2
          obtain ⟨hcb, -⟩ := hc2
          subst hcb
          refine ⟨105 :: c', hc, by simp, fun ys => ?_⟩
          have hext' := hext ys
          simp only [List.cons_append] at hext' ⊢
          simp [next_token, hext']
    · by_cases hd : isAsciiDigit b
      · rw [show next_token (b :: rest0) = (match stringParse (b :: rest0) with
            | Except.ok (v, rem) => Except.ok (some (BencodeToken.String v, rem))
            | Except.error e => Except.error e) from by simp [next_token, hi, hd]] at h
        cases hp : stringParse (b :: rest0) with
        | error e => rw [hp] at h; simp at h
        | ok p =>
          obtain ⟨v, rem⟩ := p
          rw [hp] at h
          simp at h
          obtain ⟨ht, hr⟩ := h
          subst ht; subst hr
          obtain ⟨c, hc, hne, hext⟩ := stringParse_prefix _ _ _ hp
          cases c with
          | nil => exact absurd rfl hne
          | cons cb c' =>
            have hc2 := hc
            simp only [List.cons_append, List.cons.injEq] at hc2
            obtain ⟨hcb, -⟩ := hc2
            subst hcb
            refine ⟨b :: c', hc, by simp, fun ys => ?_⟩
            have hext' := hext ys
            simp only [List.cons_append] at hext' ⊢
            simp [next_token, hi, hd, hext']
      · by_cases hl : b = 108
        · subst hl
          simp [next_token, isAsciiDigit] at h
          obtain ⟨ht, hr⟩ := h
          subst ht; subst hr
          exact ⟨[108], rfl, by simp, fun ys => by simp [next_token, isAsciiDigit]⟩
        · by_cases hdd : b = 100
          · subst hdd
            simp [next_token, isAsciiDigit] at h
            obtain ⟨ht, hr⟩ := h
            subst ht; subst hr
            exact ⟨[100], rfl, by simp, fun ys => by simp [next_token, isAsciiDigit]⟩
          · by_cases he : b = 101
            · subst he
              simp [next_token, isAsciiDigit] at h
              obtain ⟨ht, hr⟩ := h
              subst ht; subst hr
              exact ⟨[101], rfl, by simp, fun ys => by simp [next_token, isAsciiDigit]⟩
            · by_cases hn : b = 10
              · subst hn
                simp [next_token, isAsciiDigit] at h
                obtain ⟨ht, hr⟩ := h
                subst ht; subst hr
                exact ⟨[10], rfl, by simp, fun ys => by simp [next_token, isAsciiDigit]⟩
              · simp [next_token, hi, hd, hl, hdd, he, hn] at h

/-- One more unit of fuel never changes a result that was reached. -/
theorem parseFuel_mono_succ :
    ∀ (f : Nat) (i : List Nat) (s : List State) (o : List Nat) (r : Except Err (List Nat)),
      parseFuel f i s o = some r → parseFuel (f + 1) i s o = some r := by
  intro f
  induction f with
  | zero => intro i s o r h; simp [parseFuel] at h
  | succ f ih =>
    intro i s o r h
    rw [parseFuel] at h ⊢
    cases hnt : next_token i with
    | error e => rw [hnt] at h; exact h
    | ok ot =>
      cases ot with
      | none => rw [hnt] at h; exact h
      | some p =>
        obtain ⟨t, rem⟩ := p
        rw [hnt] at h
        dsimp only at h ⊢
        cases hpt : processToken t s o with
        | error e => rw [hpt] at h; exact h
        | ok q =>
          obtain ⟨s', o'⟩ := q
          rw [hpt] at h
          dsimp only at h ⊢
          exact ih rem s' o' r h

/-- Fuel monotonicity of the parse loop. -/
theorem parseFuel_mono {f f' : Nat} (hle : f ≤ f') :
    ∀ {i : List Nat} {s : List State} {o : List Nat} {r : Except Err (List Nat)},
      parseFuel f i s o = some r → parseFuel f' i s o = some r := by
  obtain ⟨k, rfl⟩ := Nat.le.dest hle
  clear hle
  induction k with
  | zero => intro i s o r h; exact h
  | succ k ih =>
    intro i s o r h
    exact parseFuel_mono_succ (f + k) _ _ _ _ (ih h)

/-- Fuel one more than the input length always suffices for the parse
loop: every produced token consumes at least one input byte. -/
theorem parseFuel_isSome :
    ∀ (n : Nat) (i : List Nat), i.length ≤ n →
      ∀ (s : List State) (o : List Nat), (parseFuel (n + 1) i s o).isSome = true := by
  intro n
  induction n with
  | zero =>
    intro i hi s o
    have hnil : i = [] := List.eq_nil_of_length_eq_zero (Nat.le_zero.mp hi)
    subst hnil
    rw [parseFuel]
    rw [show next_token [] = Except.ok none from rfl]
    cases hc : check_bad_end_stack_state s <;> simp
  | succ n ih =>
    intro i hi s o
    rw [parseFuel]
    cases hnt : next_token i with
    | error e => simp
    | ok ot =>
      cases ot with
      | none =>
        dsimp only
        cases hc : check_bad_end_stack_state s <;> simp
      | some p =>
        obtain ⟨t, rem⟩ := p
        dsimp only
        cases hpt : processToken t s o with
        | error e => simp
        | ok q =>
          obtain ⟨s', o'⟩ := q
          dsimp only
          obtain ⟨c, hc, hne, -⟩ := next_token_prefix i t rem hnt
          have hlen : rem.length < i.length := by
            subst hc
            cases c with
            | nil => exact absurd rfl hne
            | cons cb c' => simp; omega
          have hrem : rem.length ≤ n := by omega
          exact ih rem hrem s' o'

/-- The parse loop run with the fuel chosen by the entry point; by
`parseFuel_isSome` this is total. -/
def parseRun (i : List Nat) (s : List State) (o : List Nat) : Except Err (List Nat) :=
  (parseFuel (i.length + 1) i s o).get (parseFuel_isSome i.length i (Nat.le_refl _) s o)

/-- Embedding of `try_bencode_to_json` from `src/lib.rs`: run the
generator on the whole input with a fresh stack (bottom frame
`Initial`) and an empty output. -/
def try_bencode_to_json (input : List Nat) : Except Err (List Nat) :=
  parseRun input [State.Initial] []

theorem optGet_eq {α : Type} {o : Option α} {r : α} (h : o = some r)
    (hs : o.isSome = true) : o.get hs = r := by
  subst h; rfl

theorem parseRun_eq {i : List Nat} {s : List State} {o : List Nat}
    {r : Except Err (List Nat)}
    (h : parseFuel (i.length + 1) i s o = some r) : parseRun i s o = r :=
  optGet_eq h _

theorem parseFuel_step {i rem : List Nat} {t : BencodeToken} {s s' : List State}
    {o o' : List Nat} (f : Nat)
    (h1 : next_token i = Except.ok (some (t, rem)))
    (h2 : processToken t s o = Except.ok (s', o')) :
    parseFuel (f + 1) i s o = parseFuel f rem s' o' := by
  rw [parseFuel, h1]
  dsimp only
  rw [h2]

theorem parseFuel_nil_initial (f : Nat) (ms : List State) (o : List Nat) :
    parseFuel (f + 1) [] (State.Initial :: ms) o = some (Except.ok o) := rfl

/-- A consumed token takes the run to the run of the remaining input. -/
theorem parseRun_step {i rem : List Nat} {t : BencodeToken} {s s' : List State}
    {o o' : List Nat}
    (h1 : next_token i = Except.ok (some (t, rem)))
    (h2 : processToken t s o = Except.ok (s', o')) :
    parseRun i s o = parseRun rem s' o' := by
  obtain ⟨c, hc, hne, -⟩ := next_token_prefix i t rem h1
  have hlt : rem.length + 1 ≤ i.length := by
    subst hc
    cases c with
    | nil => exact absurd rfl hne
    | cons cb c' => simp
  obtain ⟨r, hr⟩ := Option.isSome_iff_exists.mp
    (parseFuel_isSome rem.length rem (Nat.le_refl _) s' o')
  have h3 : parseFuel i.length rem s' o' = some r := parseFuel_mono hlt hr
  have h4 : parseFuel (i.length + 1) i s o = some r := by
    rw [parseFuel_step i.length h1 h2]; exact h3
  rw [parseRun_eq h4, parseRun_eq hr]

theorem parseRun_tokenizer_err {i : List Nat} {e : Err} {s : List State} {o : List Nat}
    (h1 : next_token i = Except.error e) : parseRun i s o = Except.error e :=
  parseRun_eq (by rw [parseFuel, h1])

theorem parseRun_token_err {i rem : List Nat} {t : BencodeToken} {e : Err}
    {s : List State} {o : List Nat}
    (h1 : next_token i = Except.ok (some (t, rem)))
    (h2 : processToken t s o = Except.error e) : parseRun i s o = Except.error e :=
  parseRun_eq (by rw [parseFuel, h1]; dsimp only; rw [h2])

theorem parseRun_nil (s : List State) (o : List Nat) :
    parseRun [] s o =
      (match check_bad_end_stack_state s with
       | Except.ok _ => Except.ok o
       | Except.error e => Except.error e) := by
  apply parseRun_eq
  rw [parseFuel]
  rw [show next_token [] = Except.ok none from rfl]
  cases check_bad_end_stack_state s <;> rfl

/-- A whole input consisting of one value-producing token converts to
exactly what that token writes at top level. -/
theorem try_single_token {i : List Nat} {t : BencodeToken} {out1 : List Nat}
    (h1 : next_token i = Except.ok (some (t, ([] : List Nat))))
    (h2 : processToken t [State.Initial] [] = Except.ok ([State.Initial], out1)) :
    try_bencode_to_json i = Except.ok out1 := by
  unfold try_bencode_to_json
  rw [parseRun_step h1 h2, parseRun_nil]
  rfl

/-- C10: converting the empty byte sequence succeeds and produces the
empty output: end of input while peeking for the first token is normal
stream exhaustion and the stack is still in the `Initial` state. -/
theorem C10_empty_input_ok : try_bencode_to_json [] = Except.ok [] := rfl

/-- C6: when a value-beginning token arrives while the stack top is
`ExpectingFirstDictFieldOrEnd` or `ExpectingDictFieldKeyOrEnd`, the
transition fails with `ExpectedStringForDictKeyGot` carrying the
offending kind exactly when the kind is not `String`; for a `String`
the top becomes `ExpectingDictFieldValue` (with a `,` separator written
in the key-or-end state). -/
theorem C6_dict_key_requires_string (t : BencodeType) (ms : List State) :
    (begin_bencoded_value t (State.ExpectingFirstDictFieldOrEnd :: ms) =
        Except.error (Err.ExpectedStringForDictKeyGot t) ↔ t ≠ BencodeType.String) ∧
    (begin_bencoded_value t (State.ExpectingDictFieldKeyOrEnd :: ms) =
        Except.error (Err.ExpectedStringForDictKeyGot t) ↔ t ≠ BencodeType.String) ∧
    (t = BencodeType.String →
      begin_bencoded_value t (State.ExpectingFirstDictFieldOrEnd :: ms) =
          Except.ok (State.ExpectingDictFieldValue :: ms, []) ∧
      begin_bencoded_value t (State.ExpectingDictFieldKeyOrEnd :: ms) =
          Except.ok (State.ExpectingDictFieldValue :: ms, [44])) := by
  cases t <;> simp [begin_bencoded_value]

theorem C6_dict_key_requires_string_witness :
    (begin_bencoded_value BencodeType.Integer [State.ExpectingFirstDictFieldOrEnd] =
        Except.error (Err.ExpectedStringForDictKeyGot BencodeType.Integer) ↔
        BencodeType.Integer ≠ BencodeType.String) ∧
    (begin_bencoded_value BencodeType.Integer [State.ExpectingDictFieldKeyOrEnd] =
        Except.error (Err.ExpectedStringForDictKeyGot BencodeType.Integer) ↔
        BencodeType.Integer ≠ BencodeType.String) ∧
    (BencodeType.Integer = BencodeType.String →
      begin_bencoded_value BencodeType.Integer [State.ExpectingFirstDictFieldOrEnd] =
          Except.ok ([State.ExpectingDictFieldValue], []) ∧
      begin_bencoded_value BencodeType.Integer [State.ExpectingDictFieldKeyOrEnd] =
          Except.ok ([State.ExpectingDictFieldValue], [44])) :=
  C6_dict_key_requires_string BencodeType.Integer []

/-- C7: an `End` token on top state `ExpectingDictFieldValue` fails with
`PrematureEndOfDict`, on `Initial` fails with
`NoMatchingStartForListOrDictEnd`; in the list states it writes `]` and
in the other dictionary states `}` while popping the frame. -/
theorem C7_end_token_transitions (ms : List State) (out : List Nat) :
    processToken BencodeToken.EndListOrDict (State.ExpectingDictFieldValue :: ms) out =
        Except.error Err.PrematureEndOfDict ∧
    processToken BencodeToken.EndListOrDict (State.Initial :: ms) out =
        Except.error Err.NoMatchingStartForListOrDictEnd ∧
    processToken BencodeToken.EndListOrDict (State.ExpectingFirstListItemOrEnd :: ms) out =
        Except.ok (ms, out ++ [93]) ∧
    processToken BencodeToken.EndListOrDict (State.ExpectingNextListItem :: ms) out =
        Except.ok (ms, out ++ [93]) ∧
    processToken BencodeToken.EndListOrDict (State.ExpectingFirstDictFieldOrEnd :: ms) out =
        Except.ok (ms, out ++ [125]) ∧
    processToken BencodeToken.EndListOrDict (State.ExpectingDictFieldKeyOrEnd :: ms) out =
        Except.ok (ms, out ++ [125]) :=
  ⟨rfl, rfl, rfl, rfl, rfl, rfl⟩

theorem C7_end_token_transitions_witness :
    processToken BencodeToken.EndListOrDict [State.ExpectingDictFieldValue] [] =
        Except.error Err.PrematureEndOfDict ∧
    processToken BencodeToken.EndListOrDict [State.Initial] [] =
        Except.error Err.NoMatchingStartForListOrDictEnd ∧
    processToken BencodeToken.EndListOrDict [State.ExpectingFirstListItemOrEnd] [] =
        Except.ok ([], [] ++ [93]) ∧
    processToken BencodeToken.EndListOrDict [State.ExpectingNextListItem] [] =
        Except.ok ([], [] ++ [93]) ∧
    processToken BencodeToken.EndListOrDict [State.ExpectingFirstDictFieldOrEnd] [] =
        Except.ok ([], [] ++ [125]) ∧
    processToken BencodeToken.EndListOrDict [State.ExpectingDictFieldKeyOrEnd] [] =
        Except.ok ([], [] ++ [125]) :=
  C7_end_token_transitions [] []

/-- C3 counterexample: the claim says `peek_byte` never advances the
monotonic byte counter, but the first peek of a fresh byte does advance
it from 0 to 1 (the crate test
`it_should_increase_the_input_byte_counter_the_first_time_it_peeks_a_new_byte`
asserts exactly this behaviour). -/
theorem C3_counterexample :
    (ByteReader.peek_byte ⟨[108], 0, none, none, []⟩).map
        (fun p => p.2.input_byte_counter) = some 1 ∧
    some 1 ≠ some (0 : Nat) :=
  ⟨rfl, by simp⟩

/-- C3 (amended): at most one byte is buffered; a repeated peek returns
the same byte and leaves the reader unchanged (so it does not advance
the counter); a read after a peek drains the buffered byte with no
further counter advance; but the first peek of a fresh byte advances
the counter by one, because peeking is implemented by reading. -/
theorem C3_peek_read_semantics (r r' : ByteReader) (b : Nat)
    (h : ByteReader.peek_byte r = some (b, r')) :
    ByteReader.peek_byte r' = some (b, r') ∧
    r'.peeked_byte = some b ∧
    ByteReader.read_byte r' = some (b, { r' with peeked_byte := none }) ∧
    (r.peeked_byte = none → r'.input_byte_counter = r.input_byte_counter + 1) ∧
    (∀ pb, r.peeked_byte = some pb → r' = r) := by
  cases hp : r.peeked_byte with
  | some pb =>
    unfold ByteReader.peek_byte at h
    rw [hp] at h
    simp only [Option.some.injEq, Prod.mk.injEq] at h
    obtain ⟨hb, hr⟩ := h
    subst hb; subst hr
    refine ⟨?_, hp, ?_, ?_, ?_⟩
    · unfold ByteReader.peek_byte
      rw [hp]
    · unfold ByteReader.read_byte
      rw [hp]
    · intro hc; simp [hp] at hc
    · intro pb2 hpb; rfl
  | none =>
    unfold ByteReader.peek_byte at h
    rw [hp] at h
    cases hin : r.input with
    | nil =>
      unfold ByteReader.read_byte at h
      rw [hp, hin] at h
      simp at h
    | cons x xs =>
      unfold ByteReader.read_byte at h
      rw [hp, hin] at h
      simp only [Option.some.injEq, Prod.mk.injEq] at h
      obtain ⟨hb, hr⟩ := h
      subst hb; subst hr
      refine ⟨rfl, rfl, rfl, fun _ => rfl, ?_⟩
      intro pb2 hpb
      exact absurd hpb (by simp [hp])

theorem C3_peek_read_semantics_witness :
    ByteReader.peek_byte (ByteReader.mk [] 1 (some 108) (some 108) [108]) =
        some (108, ByteReader.mk [] 1 (some 108) (some 108) [108]) ∧
    (ByteReader.mk [] 1 (some 108) (some 108) [108]).peeked_byte = some 108 ∧
    ByteReader.read_byte (ByteReader.mk [] 1 (some 108) (some 108) [108]) =
        some (108, { ByteReader.mk [] 1 (some 108) (some 108) [108] with peeked_byte := none }) ∧
    ((ByteReader.mk [108] 0 none none []).peeked_byte = none →
      (ByteReader.mk [] 1 (some 108) (some 108) [108]).input_byte_counter =
        (ByteReader.mk [108] 0 none none []).input_byte_counter + 1) ∧
    (∀ pb, (ByteReader.mk [108] 0 none none []).peeked_byte = some pb →
      ByteReader.mk [] 1 (some 108) (some 108) [108] = ByteReader.mk [108] 0 none none []) :=
  C3_peek_read_semantics (ByteReader.mk [108] 0 none none [])
    (ByteReader.mk [] 1 (some 108) (some 108) [108]) 108 rfl

/-- Running the digit loop with the leading-zero flag clear: any digit
run followed by the terminator is accepted and appended verbatim. -/
theorem parseIntDigits_false_ok :
    ∀ (ds acc tail : List Nat), (∀ b ∈ ds, isAsciiDigit b = true) →
      parseIntDigits false acc (ds ++ 101 :: tail) = Except.ok (acc ++ ds, tail) := by
  intro ds
  induction ds with
  | nil =>
    intro acc tail _
    simp [parseIntDigits, isAsciiDigit]
  | cons d ds ih =>
    intro acc tail h
    have hd : isAsciiDigit d = true := h d (by simp)
    have ih' := ih (acc ++ [d]) tail (fun b hb => h b (by simp [hb]))
    simp [parseIntDigits, hd, ih']

/-- Running the digit loop with the leading-zero flag set: as soon as a
further `0` digit appears the leading-zeros error is raised, no matter
how many nonzero digits lie in between. -/
theorem parseIntDigits_true_zero_err :
    ∀ (mid acc tail : List Nat),
      (∀ b ∈ mid, isAsciiDigit b = true ∧ b ≠ 48) →
      parseIntDigits true acc (mid ++ 48 :: tail) =
        Except.error Err.LeadingZerosInIntegersNotAllowed := by
  intro mid
  induction mid with
  | nil =>
    intro acc tail _
    simp [parseIntDigits, isAsciiDigit]
  | cons m mid ih =>
    intro acc tail h
    obtain ⟨hd, hz⟩ := h m (by simp)
    have ih' := ih (acc ++ [m]) tail (fun b hb => h b (by simp [hb]))
    simp [parseIntDigits, hd, hz, ih']

/-- Running the digit loop with the leading-zero flag set but no
further `0` digit: accepted. -/
theorem parseIntDigits_true_ok :
    ∀ (mid acc tail : List Nat),
      (∀ b ∈ mid, isAsciiDigit b = true ∧ b ≠ 48) →
      parseIntDigits true acc (mid ++ 101 :: tail) = Except.ok (acc ++ mid, tail) := by
  intro mid
  induction mid with
  | nil =>
    intro acc tail _
    simp [parseIntDigits, isAsciiDigit]
  | cons m mid ih =>
    intro acc tail h
    obtain ⟨hd, hz⟩ := h m (by simp)
    have ih' := ih (acc ++ [m]) tail (fun b hb => h b (by simp [hb]))
    simp [parseIntDigits, hd, hz, ih']

/-- C4 counterexample: the claim predicts that `i01e` is rejected with
the leading-zeros error, but the lexer accepts it and returns the raw
digits `01` (the error is raised only when a second `0` digit is
seen). -/
theorem C4_counterexample :
    integerParse [105, 48, 49, 101] = Except.ok ([48, 49], []) ∧
    (Except.ok ([48, 49], ([] : List Nat)) : Except Err (List Nat × List Nat)) ≠
      Except.error Err.LeadingZerosInIntegersNotAllowed :=
  ⟨rfl, by simp⟩

/-- C4 (amended): the integer lexer raises the leading-zeros error
exactly when the first digit of the magnitude is `0` and a further `0`
digit is read before the terminator; magnitudes starting with `0`
followed only by nonzero digits (such as in `i01e` or `i-012e`) are
accepted and passed through verbatim (the bare `0` is the case of an
empty nonzero run). -/
theorem C4_leading_zero_behaviour (neg : Bool) (mid tail : List Nat)
    (hmid : ∀ b ∈ mid, isAsciiDigit b = true ∧ b ≠ 48) :
    integerParse (105 :: ((if neg then [45] else []) ++ (48 :: mid) ++ (48 :: tail))) =
        Except.error Err.LeadingZerosInIntegersNotAllowed ∧
    integerParse (105 :: ((if neg then [45] else []) ++ (48 :: mid) ++ [101])) =
        Except.ok ((if neg then [45] else []) ++ (48 :: mid), []) := by
  cases neg with
  | true =>
    constructor
    · show integerParse (105 :: 45 :: 48 :: (mid ++ 48 :: tail)) = _
      have h1 := parseIntDigits_true_zero_err mid [45, 48] tail hmid
      simp [integerParse, isAsciiDigit, h1]
    · show integerParse (105 :: 45 :: 48 :: (mid ++ [101])) = _
      have h1 := parseIntDigits_true_ok mid [45, 48] [] hmid
      simp [integerParse, isAsciiDigit, h1]
  | false =>
    constructor
    · show integerParse (105 :: 48 :: (mid ++ 48 :: tail)) = _
      have h1 := parseIntDigits_true_zero_err mid [48] tail hmid
      simp [integerParse, isAsciiDigit, h1]
    · show integerParse (105 :: 48 :: (mid ++ [101])) = _
      have h1 := parseIntDigits_true_ok mid [48] [] hmid
      simp [integerParse, isAsciiDigit, h1]

theorem C4_leading_zero_behaviour_witness :
    integerParse (105 :: ((if true then [45] else []) ++ (48 :: [49]) ++ (48 :: [101]))) =
        Except.error Err.LeadingZerosInIntegersNotAllowed ∧
    integerParse (105 :: ((if true then [45] else []) ++ (48 :: [49]) ++ [101])) =
        Except.ok ((if true then [45] else []) ++ (48 :: [49]), []) :=
  C4_leading_zero_behaviour true [49] [101] (by decide)

/-- The integer lexer on a well-formed integer with no leading zero in
the magnitude: sign and digits are returned verbatim. -/
theorem integerParse_ok (neg : Bool) (ds : List Nat) (tail : List Nat)
    (hne : ds ≠ []) (hdig : ∀ b ∈ ds, isAsciiDigit b = true)
    (hlz : ds = [48] ∨ ds.headD 0 ≠ 48) :
    integerParse (105 :: ((if neg then [45] else []) ++ ds ++ 101 :: tail)) =
      Except.ok ((if neg then [45] else []) ++ ds, tail) := by
  cases ds with
  | nil => exact absurd rfl hne
  | cons d ds' =>
    by_cases hz : d = 48
    · subst hz
      have hds' : ds' = [] := by
        rcases hlz with h | h
        · injection h with h1 h2
        · simp at h
      subst hds'
      cases neg with
      | true => simp [integerParse, isAsciiDigit, parseIntDigits]
      | false => simp [integerParse, isAsciiDigit, parseIntDigits]
    · have hd : isAsciiDigit d = true := hdig d (by simp)
      have hrest : ∀ b ∈ ds', isAsciiDigit b = true := fun b hb => hdig b (by simp [hb])
      cases neg with
      | true =>
        show integerParse (105 :: 45 :: d :: (ds' ++ 101 :: tail)) = _
        have h1 := parseIntDigits_false_ok ds' [45, d] tail hrest
        simp [integerParse, hd, hz, h1]
      | false =>
        show integerParse (105 :: d :: (ds' ++ 101 :: tail)) = _
        have hd45 : d ≠ 45 := by
          have := hd
          unfold isAsciiDigit at this
          simp only [Bool.and_eq_true, decide_eq_true_eq] at this
          omega
        have h1 := parseIntDigits_false_ok ds' [d] tail hrest
        simp [integerParse, hd, hz, hd45, h1]

/-- C5: a valid bencoded integer `i<N>e` whose magnitude has no leading
zero converts to exactly the decimal bytes of `N` verbatim, for any
number of digits (so also beyond the 64-bit range). -/
theorem C5_integer_verbatim (neg : Bool) (ds : List Nat)
    (hne : ds ≠ []) (hdig : ∀ b ∈ ds, isAsciiDigit b = true)
    (hlz : ds = [48] ∨ ds.headD 0 ≠ 48) :
    try_bencode_to_json (105 :: ((if neg then [45] else []) ++ ds ++ [101])) =
      Except.ok ((if neg then [45] else []) ++ ds) := by
  have hint : integerParse (105 :: ((if neg then [45] else []) ++ ds ++ 101 :: [])) =
      Except.ok ((if neg then [45] else []) ++ ds, []) :=
    integerParse_ok neg ds [] hne hdig hlz
  have h1 : next_token (105 :: ((if neg then [45] else []) ++ ds ++ [101])) =
      Except.ok (some (BencodeToken.Integer ((if neg then [45] else []) ++ ds), [])) := by
    have hint2 := hint
    simp only [List.append_assoc] at hint2
    simp [next_token, hint2]
  have h2 : processToken (BencodeToken.Integer ((if neg then [45] else []) ++ ds))
      [State.Initial] [] =
      Except.ok ([State.Initial], (if neg then [45] else []) ++ ds) := by
    simp [processToken, begin_bencoded_value]
  exact try_single_token h1 h2

theorem C5_integer_verbatim_witness :
    try_bencode_to_json (105 :: ((if true then [45] else []) ++
        [49, 56, 52, 52, 54, 55, 52, 52, 48, 55, 51, 55, 48, 57, 53, 53, 49, 54, 49, 54] ++
        [101])) =
      Except.ok ((if true then [45] else []) ++
        [49, 56, 52, 52, 54, 55, 52, 52, 48, 55, 51, 55, 48, 57, 53, 53, 49, 54, 49, 54]) :=
  C5_integer_verbatim true
    [49, 56, 52, 52, 54, 55, 52, 52, 48, 55, 51, 55, 48, 57, 53, 53, 49, 54, 49, 54]
    (by decide) (by decide) (by decide)

/-- The length loop on a run of digits followed by `:` accumulates the
decimal value of the digits. -/
theorem lengthParse_digits :
    ∀ (L : List Nat) (n : Nat) (rest : List Nat),
      (∀ b ∈ L, isAsciiDigit b = true) →
      lengthParse n (L ++ 58 :: rest) =
        Except.ok (L.foldl (fun a b => a * 10 + (b - 48)) n, rest) := by
  intro L
  induction L with
  | nil =>
    intro n rest _
    simp [lengthParse]
  | cons d L ih =>
    intro n rest h
    have hd : isAsciiDigit d = true := h d (by simp)
    have hne : d ≠ 58 := by
      unfold isAsciiDigit at hd
      simp only [Bool.and_eq_true, decide_eq_true_eq] at hd
      omega
    have ih' := ih (n * 10 + (d - 48)) rest (fun b hb => h b (by simp [hb]))
    simp [lengthParse, hd, hne, ih']

/-- Reading exactly as many bytes as a list holds returns that list. -/
theorem valueParse_exact :
    ∀ (v tail : List Nat), valueParse v.length (v ++ tail) = Except.ok (v, tail) := by
  intro v
  induction v with
  | nil => intro tail; simp [valueParse]
  | cons b v ih => intro tail; simp [valueParse, ih]

/-- The string lexer on `<digits> : <bytes>` whose digit value is the
byte count returns exactly the value bytes. -/
theorem stringParse_ok (L bs : List Nat)
    (hdig : ∀ b ∈ L, isAsciiDigit b = true)
    (hval : L.foldl (fun a b => a * 10 + (b - 48)) 0 = bs.length) :
    stringParse (L ++ 58 :: bs) = Except.ok (bs, []) := by
  unfold stringParse
  rw [lengthParse_digits L 0 bs hdig, hval]
  have hv := valueParse_exact bs []
  rw [List.append_nil] at hv
  simpa using hv

/-- The tokenizer on a whole well-formed bencoded string input. -/
theorem next_token_string_ok (L bs : List Nat) (hne : L ≠ [])
    (hdig : ∀ b ∈ L, isAsciiDigit b = true)
    (hval : L.foldl (fun a b => a * 10 + (b - 48)) 0 = bs.length) :
    next_token (L ++ 58 :: bs) =
      Except.ok (some (BencodeToken.String bs, ([] : List Nat))) := by
  cases L with
  | nil => exact absurd rfl hne
  | cons d L' =>
    have hd : isAsciiDigit d = true := hdig d (by simp)
    have hd105 : d ≠ 105 := by
      unfold isAsciiDigit at hd
      simp only [Bool.and_eq_true, decide_eq_true_eq] at hd
      omega
    have hs := stringParse_ok (d :: L') bs hdig hval
    simp only [List.cons_append] at hs ⊢
    simp [next_token, hd105, hd, hs]

theorem jsonEscapeList_strTagOpen : jsonEscapeList strTagOpen = strTagOpen := by decide

theorem jsonEscapeList_strTagClose : jsonEscapeList strTagClose = strTagClose := by decide

theorem jsonEscapeList_hexTagOpen : jsonEscapeList hexTagOpen = hexTagOpen := by decide

theorem jsonEscapeList_hexTagClose : jsonEscapeList hexTagClose = hexTagClose := by decide

/-- C1 counterexample: for the input `4:spam` the claim predicts the
JSON string literal whose content is the escaped original text, but the
output wraps the text in `<string>` tags inside the literal. -/
theorem C1_counterexample :
    try_bencode_to_json [52, 58, 115, 112, 97, 109] =
      Except.ok (34 :: (strTagOpen ++ ([115, 112, 97, 109] ++ (strTagClose ++ [34])))) ∧
    34 :: (strTagOpen ++ ([115, 112, 97, 109] ++ (strTagClose ++ [34]))) ≠
      34 :: (jsonEscapeList [115, 112, 97, 109] ++ [34]) :=
  ⟨rfl, by decide⟩

/-- C1 (amended): a valid bencoded string of valid UTF-8 value bytes
converts to a JSON string literal whose content is the decoded original
text wrapped in `<string>` and `</string>` tags, with double quotes,
backslashes and control characters escaped per JSON (`serde_json`)
rules. -/
theorem C1_utf8_string_output (L bs cs : List Nat) (hne : L ≠ [])
    (hdig : ∀ b ∈ L, isAsciiDigit b = true)
    (hval : L.foldl (fun a b => a * 10 + (b - 48)) 0 = bs.length)
    (hutf : decodeUtf8 bs = some cs) :
    try_bencode_to_json (L ++ 58 :: bs) =
      Except.ok (34 :: (strTagOpen ++ (jsonEscapeList cs ++ (strTagClose ++ [34])))) := by
  apply try_single_token (next_token_string_ok L bs hne hdig hval)
  simp [processToken, begin_bencoded_value, encodeStringToken, hutf, jsonEncodeString,
    jsonEscapeList_append, jsonEscapeList_strTagOpen, jsonEscapeList_strTagClose]

theorem C1_utf8_string_output_witness :
    try_bencode_to_json ([52] ++ 58 :: [115, 112, 97, 109]) =
      Except.ok (34 :: (strTagOpen ++
        (jsonEscapeList [115, 112, 97, 109] ++ (strTagClose ++ [34])))) :=
  C1_utf8_string_output [52] [115, 112, 97, 109] [115, 112, 97, 109]
    (by decide) (by decide) (by decide) (by decide)

/-- C2 counterexample: for the input `1:` followed by the byte `0xFF`
the claim predicts the JSON string literal whose content is exactly the
hex digits `ff`, but the output wraps the hex digits in `<hex>` tags
inside the literal. -/
theorem C2_counterexample :
    try_bencode_to_json [49, 58, 255] =
      Except.ok (34 :: (hexTagOpen ++ ([102, 102] ++ (hexTagClose ++ [34])))) ∧
    34 :: (hexTagOpen ++ ([102, 102] ++ (hexTagClose ++ [34]))) ≠
      34 :: (hexEncode [255] ++ [34]) :=
  ⟨rfl, by decide⟩

/-- C2 (amended): a bencoded string whose value bytes are not valid
UTF-8 converts to a JSON string literal whose content is the lowercase
hex encoding of the raw bytes wrapped in `<hex>` and `</hex>` tags. -/
theorem C2_non_utf8_string_output (L bs : List Nat) (hne : L ≠ [])
    (hdig : ∀ b ∈ L, isAsciiDigit b = true)
    (hval : L.foldl (fun a b => a * 10 + (b - 48)) 0 = bs.length)
    (hutf : decodeUtf8 bs = none) :
    try_bencode_to_json (L ++ 58 :: bs) =
      Except.ok (34 :: (hexTagOpen ++ (hexEncode bs ++ (hexTagClose ++ [34])))) := by
  apply try_single_token (next_token_string_ok L bs hne hdig hval)
  simp [processToken, begin_bencoded_value, encodeStringToken, hutf, jsonEncodeString,
    jsonEscapeList_append, jsonEscapeList_hexTagOpen, jsonEscapeList_hexTagClose,
    jsonEscapeList_hexEncode]

theorem C2_non_utf8_string_output_witness :
    try_bencode_to_json ([49] ++ 58 :: [255]) =
      Except.ok (34 :: (hexTagOpen ++ (hexEncode [255] ++ (hexTagClose ++ [34])))) :=
  C2_non_utf8_string_output [49] [255] (by decide) (by decide) (by decide) (by decide)

/-- Opening `m` nested lists pushes `m` frames and writes `m` times
the `[` character, leaving the innermost frame fresh. -/
theorem parseRun_open_lists :
    ∀ (m : Nat) (tail : List Nat) (ms : List State) (out : List Nat),
      parseRun (List.replicate m 108 ++ tail)
          (State.ExpectingFirstListItemOrEnd :: ms) out =
        parseRun tail
          (State.ExpectingFirstListItemOrEnd ::
            (List.replicate m State.ExpectingNextListItem ++ ms))
          (out ++ List.replicate m 91) := by
  intro m
  induction m with
  | zero => intro tail ms out; simp
  | succ m ih =>
    intro tail ms out
    rw [List.replicate_succ, List.cons_append]
    rw [parseRun_step
      (show next_token (108 :: (List.replicate m 108 ++ tail)) =
        Except.ok (some (BencodeToken.BeginList, List.replicate m 108 ++ tail)) from rfl)
      (show processToken BencodeToken.BeginList
          (State.ExpectingFirstListItemOrEnd :: ms) out =
        Except.ok (State.ExpectingFirstListItemOrEnd ::
          State.ExpectingNextListItem :: ms, out ++ [91]) from by
        simp [processToken, begin_bencoded_value])]
    have e1 : List.replicate (m + 1) State.ExpectingNextListItem ++ ms =
        List.replicate m State.ExpectingNextListItem ++
          (State.ExpectingNextListItem :: ms) := by
      rw [List.replicate_succ']; simp
    have e2 : out ++ List.replicate (m + 1) (91 : Nat) =
        (out ++ [91]) ++ List.replicate m 91 := by
      rw [List.replicate_succ]; simp
    rw [e1, e2]
    exact ih tail (State.ExpectingNextListItem :: ms) (out ++ [91])

/-- Closing `k` list frames writes `k` times the `]` character and pops
the `k` frames. -/
theorem parseRun_close_lists :
    ∀ (k : Nat) (tail : List Nat) (ms : List State) (out : List Nat),
      parseRun (List.replicate k 101 ++ tail)
          (List.replicate k State.ExpectingNextListItem ++ ms) out =
        parseRun tail ms (out ++ List.replicate k 93) := by
  intro k
  induction k with
  | zero => intro tail ms out; simp
  | succ k ih =>
    intro tail ms out
    rw [List.replicate_succ, List.cons_append,
      List.replicate_succ (State.ExpectingNextListItem), List.cons_append]
    rw [parseRun_step
      (show next_token (101 :: (List.replicate k 101 ++ tail)) =
        Except.ok (some (BencodeToken.EndListOrDict, List.replicate k 101 ++ tail)) from rfl)
      (show processToken BencodeToken.EndListOrDict
          (State.ExpectingNextListItem ::
            (List.replicate k State.ExpectingNextListItem ++ ms)) out =
        Except.ok (List.replicate k State.ExpectingNextListItem ++ ms, out ++ [93]) from rfl)]
    have e2 : out ++ List.replicate (k + 1) (93 : Nat) =
        (out ++ [93]) ++ List.replicate k 93 := by
      rw [List.replicate_succ]; simp
    rw [e2]
    exact ih tail ms (out ++ [93])

/-- Nested empty lists convert to the matching nested JSON arrays. -/
theorem try_nested_lists (n : Nat) :
    try_bencode_to_json (benNestedLists n) =
      Except.ok (List.replicate n 91 ++ List.replicate n 93) := by
  cases n with
  | zero => rfl
  | succ m =>
    unfold try_bencode_to_json benNestedLists
    rw [List.replicate_succ, List.cons_append]
    rw [parseRun_step
      (show next_token (108 :: (List.replicate m 108 ++ List.replicate (m + 1) 101)) =
        Except.ok (some (BencodeToken.BeginList,
          List.replicate m 108 ++ List.replicate (m + 1) 101)) from rfl)
      (show processToken BencodeToken.BeginList [State.Initial] [] =
        Except.ok ([State.ExpectingFirstListItemOrEnd, State.Initial], [91]) from by
        simp [processToken, begin_bencoded_value])]
    rw [parseRun_open_lists m (List.replicate (m + 1) 101) [State.Initial] [91]]
    rw [List.replicate_succ]
    rw [parseRun_step
      (show next_token (101 :: List.replicate m 101) =
        Except.ok (some (BencodeToken.EndListOrDict, List.replicate m 101)) from rfl)
      (show processToken BencodeToken.EndListOrDict
          (State.ExpectingFirstListItemOrEnd ::
            (List.replicate m State.ExpectingNextListItem ++ [State.Initial]))
          ([91] ++ List.replicate m 91) =
        Except.ok (List.replicate m State.ExpectingNextListItem ++ [State.Initial],
          ([91] ++ List.replicate m 91) ++ [93]) from rfl)]
    rw [show List.replicate m (101 : Nat) = List.replicate m 101 ++ [] from
      (List.append_nil _).symm]
    rw [parseRun_close_lists m [] [State.Initial] (([91] ++ List.replicate m 91) ++ [93])]
    rw [parseRun_nil]
    simp [List.replicate_succ]
    rfl

theorem encodeStringToken_foo : encodeStringToken [102, 111, 111] = fooKeyLit := rfl

/-- A nested dictionary block consumed while a field value is expected
writes the `:` separator followed by the nested-objects JSON and leaves
the frame expecting the next key or the end. -/
theorem parseRun_nested_dicts :
    ∀ (n : Nat) (tail : List Nat) (ms : List State) (out : List Nat),
      parseRun (benNestedDicts n ++ tail) (State.ExpectingDictFieldValue :: ms) out =
        parseRun tail (State.ExpectingDictFieldKeyOrEnd :: ms)
          (out ++ 58 :: jsonNestedObjects n) := by
  intro n
  induction n with
  | zero =>
    intro tail ms out
    show parseRun (100 :: 101 :: tail) (State.ExpectingDictFieldValue :: ms) out = _
    rw [parseRun_step
      (show next_token (100 :: 101 :: tail) =
        Except.ok (some (BencodeToken.BeginDict, 101 :: tail)) from rfl)
      (show processToken BencodeToken.BeginDict (State.ExpectingDictFieldValue :: ms) out =
        Except.ok (State.ExpectingFirstDictFieldOrEnd ::
          State.ExpectingDictFieldKeyOrEnd :: ms, (out ++ [58]) ++ [123]) from rfl)]
    rw [parseRun_step
      (show next_token (101 :: tail) =
        Except.ok (some (BencodeToken.EndListOrDict, tail)) from rfl)
      (show processToken BencodeToken.EndListOrDict
          (State.ExpectingFirstDictFieldOrEnd ::
            State.ExpectingDictFieldKeyOrEnd :: ms) ((out ++ [58]) ++ [123]) =
        Except.ok (State.ExpectingDictFieldKeyOrEnd :: ms,
          ((out ++ [58]) ++ [123]) ++ [125]) from rfl)]
    simp [jsonNestedObjects]
  | succ n ih =>
    intro tail ms out
    show parseRun (100 :: 51 :: 58 :: 102 :: 111 :: 111 ::
        ((benNestedDicts n ++ [101]) ++ tail)) (State.ExpectingDictFieldValue :: ms) out = _
    rw [parseRun_step
      (show next_token (100 :: 51 :: 58 :: 102 :: 111 :: 111 ::
          ((benNestedDicts n ++ [101]) ++ tail)) =
        Except.ok (some (BencodeToken.BeginDict, 51 :: 58 :: 102 :: 111 :: 111 ::
          ((benNestedDicts n ++ [101]) ++ tail))) from rfl)
      (show processToken BencodeToken.BeginDict (State.ExpectingDictFieldValue :: ms) out =
        Except.ok (State.ExpectingFirstDictFieldOrEnd ::
          State.ExpectingDictFieldKeyOrEnd :: ms, (out ++ [58]) ++ [123]) from rfl)]
    rw [parseRun_step
      (show next_token (51 :: 58 :: 102 :: 111 :: 111 :: ((benNestedDicts n ++ [101]) ++ tail)) =
        Except.ok (some (BencodeToken.String [102, 111, 111],
          (benNestedDicts n ++ [101]) ++ tail)) from rfl)
      (show processToken (BencodeToken.String [102, 111, 111])
          (State.ExpectingFirstDictFieldOrEnd ::
            State.ExpectingDictFieldKeyOrEnd :: ms) ((out ++ [58]) ++ [123]) =
        Except.ok (State.ExpectingDictFieldValue ::
          State.ExpectingDictFieldKeyOrEnd :: ms,
          (((out ++ [58]) ++ [123]) ++ []) ++ fooKeyLit) from rfl)]
    rw [List.append_assoc (benNestedDicts n) [101] tail]
    rw [show benNestedDicts n ++ ([101] ++ tail) = benNestedDicts n ++ (101 :: tail) from rfl]
    rw [ih (101 :: tail) (State.ExpectingDictFieldKeyOrEnd :: ms)
      ((((out ++ [58]) ++ [123]) ++ []) ++ fooKeyLit)]
    rw [parseRun_step
      (show next_token (101 :: tail) =
        Except.ok (some (BencodeToken.EndListOrDict, tail)) from rfl)
      (show processToken BencodeToken.EndListOrDict
          (State.ExpectingDictFieldKeyOrEnd :: State.ExpectingDictFieldKeyOrEnd :: ms)
          (((((out ++ [58]) ++ [123]) ++ []) ++ fooKeyLit) ++
            58 :: jsonNestedObjects n) =
        Except.ok (State.ExpectingDictFieldKeyOrEnd :: ms,
          ((((((out ++ [58]) ++ [123]) ++ []) ++ fooKeyLit) ++
            58 :: jsonNestedObjects n) ++ [125])) from rfl)]
    simp [jsonNestedObjects]

/-- Nested `3:foo`-keyed dictionaries convert to the matching nested
JSON objects. -/
theorem try_nested_dicts (n : Nat) :
    try_bencode_to_json (benNestedDicts n) = Except.ok (jsonNestedObjects n) := by
  cases n with
  | zero => rfl
  | succ m =>
    unfold try_bencode_to_json
    show parseRun (100 :: 51 :: 58 :: 102 :: 111 :: 111 ::
        (benNestedDicts m ++ [101])) [State.Initial] [] = _
    rw [parseRun_step
      (show next_token (100 :: 51 :: 58 :: 102 :: 111 :: 111 ::
          (benNestedDicts m ++ [101])) =
        Except.ok (some (BencodeToken.BeginDict, 51 :: 58 :: 102 :: 111 :: 111 ::
          (benNestedDicts m ++ [101]))) from rfl)
      (show processToken BencodeToken.BeginDict [State.Initial] [] =
        Except.ok ([State.ExpectingFirstDictFieldOrEnd, State.Initial], [123]) from rfl)]
    rw [parseRun_step
      (show next_token (51 :: 58 :: 102 :: 111 :: 111 :: (benNestedDicts m ++ [101])) =
        Except.ok (some (BencodeToken.String [102, 111, 111],
          benNestedDicts m ++ [101])) from rfl)
      (show processToken (BencodeToken.String [102, 111, 111])
          [State.ExpectingFirstDictFieldOrEnd, State.Initial] [123] =
        Except.ok ([State.ExpectingDictFieldValue, State.Initial],
          ([123] ++ []) ++ fooKeyLit) from rfl)]
    rw [parseRun_nested_dicts m [101] [State.Initial] (([123] ++ []) ++ fooKeyLit)]
    rw [parseRun_step
      (show next_token [101] =
        Except.ok (some (BencodeToken.EndListOrDict, ([] : List Nat))) from rfl)
      (show processToken BencodeToken.EndListOrDict
          [State.ExpectingDictFieldKeyOrEnd, State.Initial]
          ((([123] ++ []) ++ fooKeyLit) ++ 58 :: jsonNestedObjects m) =
        Except.ok ([State.Initial],
          (((([123] ++ []) ++ fooKeyLit) ++ 58 :: jsonNestedObjects m) ++ [125])) from rfl)]
    rw [parseRun_nil]
    simp [jsonNestedObjects]
    rfl

/-- C8: for every `n` (including `n = 100`), the bencode of `n` nested
empty lists (`n` times `l` then `n` times `e`) converts to `n` times
`[` followed by `n` times `]`, and the nested dictionary analogue keyed
`3:foo` (as generated by the crate test helpers) converts to the
matching nested JSON objects. -/
theorem C8_nested_structures (n : Nat) :
    try_bencode_to_json (benNestedLists n) =
        Except.ok (List.replicate n 91 ++ List.replicate n 93) ∧
    try_bencode_to_json (benNestedDicts n) = Except.ok (jsonNestedObjects n) :=
  ⟨try_nested_lists n, try_nested_dicts n⟩

/-- The relation `InsertNL xs ys`: `ys` is `xs` with any number of
newline (`0x0A`) bytes inserted at token boundaries — before the first
token, between two tokens, or after the last one.  The `tok`
constructor copies the byte chunk `c` that the tokenizer consumes for
one token of `xs`. -/
inductive InsertNL : List Nat → List Nat → Prop where
  | nil : InsertNL [] []
  | newline {xs ys : List Nat} : InsertNL xs ys → InsertNL xs (10 :: ys)
  | tok {c xs ys : List Nat} {t : BencodeToken} (hc : c ≠ [])
      (h : next_token (c ++ xs) = Except.ok (some (t, xs)))
      (htl : InsertNL xs ys) : InsertNL (c ++ xs) (c ++ ys)

/-- Inserting newlines at token boundaries never changes the result of
the parse loop, whatever the stack and pending output. -/
theorem parseRun_insertNL {xs ys : List Nat} (hins : InsertNL xs ys) :
    ∀ (s : List State) (o : List Nat), parseRun xs s o = parseRun ys s o := by
  induction hins with
  | nil => intro s o; rfl
  | newline htl ih =>
    intro s o
    rw [parseRun_step
      (show next_token (10 :: _) = Except.ok (some (BencodeToken.LineBreak, _)) from rfl)
      (show processToken BencodeToken.LineBreak s o = Except.ok (s, o) from rfl)]
    exact (ih s o).trans rfl
  | tok hc h htl ih =>
    intro s o
    rename_i c xs' ys' t
    obtain ⟨c₂, hc₂, -, hext⟩ := next_token_prefix _ _ _ h
    have hcc : c₂ = c := List.append_cancel_right hc₂.symm
    subst hcc
    cases hpt : processToken t s o with
    | error e =>
      rw [parseRun_token_err h hpt, parseRun_token_err (hext ys') hpt]
    | ok q =>
      obtain ⟨s', o'⟩ := q
      rw [parseRun_step h hpt, parseRun_step (hext ys') hpt]
      exact ih s' o'

/-- C9: if an input converts successfully, then the same input with any
number of newline bytes inserted at token boundaries (in particular
before, after, or between top-level values) converts successfully to
exactly the same output. -/
theorem C9_newline_insertion (xs ys out : List Nat) (hins : InsertNL xs ys)
    (hok : try_bencode_to_json xs = Except.ok out) :
    try_bencode_to_json ys = Except.ok out := by
  unfold try_bencode_to_json at hok ⊢
  rw [← parseRun_insertNL hins [State.Initial] []]
  exact hok

theorem C9_newline_insertion_witness :
    try_bencode_to_json [10, 105, 48, 101, 10] = Except.ok [48] :=
  C9_newline_insertion [105, 48, 101] [10, 105, 48, 101, 10] [48]
    (InsertNL.newline
      (@InsertNL.tok [105, 48, 101] [] [10] (BencodeToken.Integer [48])
        (by simp) (by rfl) (InsertNL.newline InsertNL.nil)))
    (by rfl)
